import Mathlib

/-!
Verification of the msipatch relational-table engine (src/msipatch.py).

Python strings are embedded as `List Char` (named `Str` below); the Python
string operations used by the source (`strip`, `split`, `startswith`,
`lower`, `title`, `isalnum`, `int(...)`, `str(...)`, `"\t".join`) are defined
below as executable Lean functions over `List Char`.  Table files read via
`readlines()` are embedded as `List Str` (one entry per line, the trailing
newline characters included exactly as `readlines` keeps them).  The
`while` loop of `get_next_install_sequence_number` and the digit rendering
of `str(n)` are written with an explicit fuel argument so that the kernel
can evaluate them; the fuel is provably sufficient, so no behaviour is lost.
Exceptions (`ValueError`, `IndexError`, `RuntimeError`) are embedded as
`none` / a `false` success flag, with writes that Python performed before
the exception kept in the returned state.
-/

set_option maxRecDepth 4000

abbrev Str := List Char

/-- Python `str.strip()` whitespace set (ASCII part): space, tab, newline,
carriage return, vertical tab, form feed. -/
def pySpace (c : Char) : Bool :=
  c = ' ' || c = '\t' || c = '\n' || c = '\x0d' || c = '\x0b' || c = '\x0c'

/-- Drop characters satisfying `p` from the right end of a list. -/
def rstripBy (p : Char → Bool) (l : Str) : Str :=
  (l.reverse.dropWhile p).reverse

/-- Python `str.strip()` (no argument): strip whitespace from both ends. -/
def pyStrip (l : Str) : Str :=
  rstripBy pySpace (l.dropWhile pySpace)

/-- Python `str.rstrip("\n")`. -/
def rstripNl (l : Str) : Str :=
  rstripBy (fun c => c = '\n') l

/-- Python `str.split(sep)` for a one-character separator `sep`
(the source only ever splits on `"\t"`, `"\\"`, `"/"`, `"."`).
`"".split(sep) = [""]` holds, as in Python. -/
def splitOnChar (sep : Char) : Str → List Str
  | [] => [[]]
  | c :: cs =>
    if c = sep then [] :: splitOnChar sep cs
    else
      match splitOnChar sep cs with
      | [] => [[c]]
      | h :: t => (c :: h) :: t

/-- Python `sep.join(parts)` for a one-character separator. -/
def joinWith (sep : Char) : List Str → Str
  | [] => []
  | [x] => x
  | x :: y :: zs => x ++ sep :: joinWith sep (y :: zs)

/-- Python `str.startswith(pat)`. -/
def pyStartsWith (pat : Str) (l : Str) : Bool :=
  pat.isPrefixOf l

/-- Python `str.lower()` (ASCII). -/
def pyLower (l : Str) : Str := l.map Char.toLower

/-- Worker for `pyTitle`; the `Bool` records whether the previous character
was a letter (a cased character). -/
def pyTitleGo : Bool → Str → Str
  | _, [] => []
  | prev, c :: cs =>
    (if c.isAlpha then (if prev then c.toLower else c.toUpper) else c)
      :: pyTitleGo c.isAlpha cs

/-- Python `str.title()` (ASCII): the first letter after a non-letter is
uppercased, every other letter is lowercased. -/
def pyTitle (l : Str) : Str := pyTitleGo false l

/-- Parse a nonempty all-digit string into a `Nat` (helper for `pyInt?`). -/
def digitsToNat? (l : Str) : Option Nat :=
  if l.isEmpty then none
  else if l.all Char.isDigit then
    some (l.foldl (fun a c => a * 10 + (c.toNat - 48)) 0)
  else none

/-- Python `int(s)`: surrounding whitespace is tolerated, an optional single
sign, then decimal digits (digit-group underscores are not modelled). -/
def pyInt? (l : Str) : Option Int :=
  let t := pyStrip l
  if t.head? = some '-' then (digitsToNat? t.tail).map (fun n => -(Int.ofNat n))
  else if t.head? = some '+' then (digitsToNat? t.tail).map Int.ofNat
  else (digitsToNat? t).map Int.ofNat

/-- Decimal digit characters of `n`, with fuel (the fuel `n+1` used by
`natToChars` is provably enough, see `digitsToNat?_natToChars`). -/
def natToCharsAux : Nat → Nat → Str
  | 0, _ => []
  | fuel + 1, n =>
    if n < 10 then [Char.ofNat (48 + n)]
    else natToCharsAux fuel (n / 10) ++ [Char.ofNat (48 + n % 10)]

/-- Decimal rendering of a natural number, as Python `str(n)` for `n ≥ 0`. -/
def natToChars (n : Nat) : Str := natToCharsAux (n + 1) n

/-- Python `str(i)` for an integer. -/
def intToChars (i : Int) : Str :=
  if i < 0 then '-' :: natToChars i.natAbs else natToChars i.toNat

/-- Python `list.insert(idx, a)`: an index past the end appends. -/
def pyInsert : List α → Nat → α → List α
  | l, 0, a => a :: l
  | [], _ + 1, a => [a]
  | x :: xs, n + 1, a => x :: pyInsert xs n a

/-! Path resolver (`MSIPathResolver`) -/

/-- A row of the Directory table as produced by the resolver:
`(folder_id, parent_id, default_dir)`.  The parent is `none` exactly where
Python carries `None` (a synthetic node following an unknown alias). -/
structure DirEntry where
  id : Str
  parent : Option Str
  name : Str
deriving DecidableEq, Repr

/-- Pair a triple with itself (for `FOLDER_MAP` entries that are plain
tuples in the source, not architecture lambdas). -/
def dupT (t : String × String × String) :
    (String × String × String) × (String × String × String) := (t, t)

/-- Embedding of the `MSIPathResolver.FOLDER_MAP` dictionary as an
association list: for each alias key, the triple produced under `"x64"`
and the triple produced under any other architecture (the two branches of
the `lambda arch: ... if arch == "x64" else ...` entries; plain tuple
entries carry the same triple twice via `dupT`). -/
def folderAList :
    List (String × ((String × String × String) × (String × String × String))) := [
  ("windows", dupT ("WindowsFolder", "TARGETDIR", "Windows")),
  ("system32", (("System64Folder", "WindowsFolder", "System64"),
                ("SystemFolder", "WindowsFolder", "System32"))),
  ("systemfolder", (("System64Folder", "WindowsFolder", "System64"),
                    ("SystemFolder", "WindowsFolder", "System32"))),
  ("syswow64", (("SystemFolder", "WindowsFolder", "SysWOW64"),
                ("System64Folder", "WindowsFolder", "SysWOW64"))),
  ("fonts", dupT ("FontsFolder", "WindowsFolder", "Fonts")),
  ("program files", (("ProgramFiles64Folder", "TARGETDIR", "ProgramFiles"),
                     ("ProgramFilesFolder", "TARGETDIR", "ProgramFiles"))),
  ("program files (x86)", dupT ("ProgramFilesFolder", "TARGETDIR", "ProgramFiles (x86)")),
  ("common files", (("CommonFiles64Folder", "ProgramFiles64Folder", "Common Files"),
                    ("CommonFilesFolder", "ProgramFilesFolder", "Common Files"))),
  ("programdata", dupT ("CommonAppDataFolder", "TARGETDIR", "CommonAppData")),
  ("users", dupT ("ProfilesFolder", "TARGETDIR", "Users")),
  ("personalfolder", dupT ("PersonalFolder", "TARGETDIR", "Documents")),
  ("appdata", dupT ("AppDataFolder", "TARGETDIR", "AppData")),
  ("localappdata", dupT ("LocalAppDataFolder", "TARGETDIR", "LocalAppData")),
  ("desktop", dupT ("DesktopFolder", "TARGETDIR", "Desktop")),
  ("documents", dupT ("PersonalFolder", "TARGETDIR", "Documents")),
  ("downloads", dupT ("DownloadsFolder", "PersonalFolder", "Downloads")),
  ("start menu", dupT ("StartMenuFolder", "TARGETDIR", "Start Menu")),
  ("programs", dupT ("ProgramsFolder", "StartMenuFolder", "Programs")),
  ("startup", dupT ("StartupFolder", "TARGETDIR", "Startup")),
  ("sendto", dupT ("SendToFolder", "TARGETDIR", "SendTo")),
  ("templates", dupT ("TemplatesFolder", "TARGETDIR", "Templates")),
  ("favorites", dupT ("FavoritesFolder", "TARGETDIR", "Favorites")),
  ("recent", dupT ("RecentFolder", "TARGETDIR", "Recent")),
  ("nethood", dupT ("NetHoodFolder", "TARGETDIR", "NetHood")),
  ("printhood", dupT ("PrintHoodFolder", "TARGETDIR", "PrintHood")),
  ("common desktop", dupT ("CommonDesktopFolder", "TARGETDIR", "Desktop")),
  ("common programs", dupT ("CommonProgramsFolder", "TARGETDIR", "Programs")),
  ("common start menu", dupT ("CommonStartMenuFolder", "TARGETDIR", "Start Menu")),
  ("common startup", dupT ("CommonStartupFolder", "TARGETDIR", "Startup")),
  ("admin tools", dupT ("AdminToolsFolder", "TARGETDIR", "AdminTools")),
  ("common admin tools", dupT ("CommonAdminToolsFolder", "TARGETDIR", "AdminTools")),
  ("internet", dupT ("InternetFolder", "TARGETDIR", "Internet")),
  ("pictures", dupT ("MyPicturesFolder", "PersonalFolder", "My Pictures")),
  ("music", dupT ("MyMusicFolder", "PersonalFolder", "My Music")),
  ("videos", dupT ("MyVideoFolder", "PersonalFolder", "My Videos")),
  ("temp", dupT ("TempFolder", "TARGETDIR", "Temp")),
  ("system64folder", dupT ("System64Folder", "WindowsFolder", "System64")),
  ("programfilesfolder", dupT ("ProgramFilesFolder", "TARGETDIR", "ProgramFiles")),
  ("programfiles64folder", dupT ("ProgramFiles64Folder", "TARGETDIR", "ProgramFiles")),
  ("commonfilesfolder", dupT ("CommonFilesFolder", "ProgramFilesFolder", "Common Files")),
  ("commonfiles64folder", dupT ("CommonFiles64Folder", "ProgramFiles64Folder", "Common Files")),
  ("windowsfolder", dupT ("WindowsFolder", "TARGETDIR", "Windows"))]

/-- Conversion of a `String` triple to the `List Char` representation. -/
def strTriple (t : String × String × String) : Str × Str × Str :=
  (t.1.toList, t.2.1.toList, t.2.2.toList)

/-- Embedding of the lookup `FOLDER_MAP.get(key_lower)` together with the
call `entry(self.msi_arch) if callable(entry) else entry`: find the key in
the association list and select the branch by `archL = "x64"`.  `archL` is
the lowercased architecture (`self.msi_arch = msi_arch.lower()` in
`__init__`). -/
def folderMap (archL : Str) (key : Str) : Option (Str × Str × Str) :=
  match folderAList.find? (fun kv => kv.1.toList = key) with
  | none => none
  | some kv =>
    some (if archL = "x64".toList then strTriple kv.2.1 else strTriple kv.2.2)

/-- Embedding of `MSIPathResolver._make_directory_id`: `parent_id + "_" + clean` when
`parent_id` is truthy (not `None`, not empty), else `clean`, where `clean`
keeps only the alphanumeric characters of `name.title()`. -/
def makeDirectoryId (name : Str) (parent : Option Str) : Str :=
  let clean := (pyTitle name).filter Char.isAlphanum
  match parent with
  | none => clean
  | some p => if p = [] then clean else p ++ '_' :: clean

/-- The nested `add_folder` of `get_required_directory_entries`.  The fuel
argument makes the recursion on the parent alias structural; every parent
chain of `FOLDER_MAP` has length at most two, so the fuel used below
(`addFolderFuel = 32`) is never exhausted.  Returns the updated `entries`
list together with the returned `folder_id` (`none` for an unknown alias,
matching the Python `None` value). -/
def addFolder (archL : Str) : Nat → List DirEntry → Str → List DirEntry × Option Str
  | 0, entries, _ => (entries, none)
  | fuel + 1, entries, key =>
    let keyLower := pyLower key
    match folderMap archL keyLower with
    | none => (entries, none)
    | some (fid, pid, ddir) =>
      let entries1 :=
        if pid ≠ [] ∧ pid ≠ "TARGETDIR".toList ∧ pyLower pid ≠ keyLower then
          (addFolder archL fuel entries pid).1
        else entries
      if entries1.any (fun e => e.id = fid) then (entries1, some fid)
      else (entries1 ++ [⟨fid, some pid, ddir⟩], some fid)

def addFolderFuel : Nat := 32

/-- The `for part in parts[1:]` loop of `get_required_directory_entries`:
each remaining segment appends one synthetic node and becomes the parent of
the next. -/
def resolveTail : Option Str → List Str → List DirEntry
  | _, [] => []
  | pid, part :: rest =>
    let dirId := makeDirectoryId part pid
    ⟨dirId, pid, part⟩ :: resolveTail (some dirId) rest

/-- Embedding of `MSIPathResolver.get_required_directory_entries` (with
`self.msi_arch = arch.lower()` from `__init__` applied): normalize `/` to
`\`, split, resolve the first segment through `FOLDER_MAP`, then derive one
synthetic node per remaining segment. -/
def get_required_directory_entries (arch : Str) (inputPath : Str) : List DirEntry :=
  let parts := splitOnChar '\\' (inputPath.map (fun c => if c = '/' then '\\' else c))
  match parts with
  | [] => []
  | p0 :: rest =>
    let r := addFolder (pyLower arch) addFolderFuel [] p0
    r.1 ++ resolveTail r.2 rest

/-! Table engine (`InstallerDatabaseTables`) -/

/-- Skip condition of `get_top_level_feature`:
`line.strip() == "" or line.startswith("s") or line.startswith("Feature")`. -/
def featureSkip (l : Str) : Bool :=
  (pyStrip l).isEmpty || pyStartsWith ['s'] l || pyStartsWith "Feature".toList l

/-- Accept condition of `get_top_level_feature`:
`len(cols) >= 2 and cols[1].strip() == ""` for `cols = line.strip().split("\t")`. -/
def featureQualifies (l : Str) : Bool :=
  let cols := splitOnChar '\t' (pyStrip l)
  decide (2 ≤ cols.length) && (pyStrip (cols.getD 1 [])).isEmpty

/-- Embedding of `InstallerDatabaseTables.get_top_level_feature` over the lines of
Feature.idt; `none` embeds the `RuntimeError` raised when no line matches. -/
def get_top_level_feature : List Str → Option Str
  | [] => none
  | l :: ls =>
    if featureSkip l then get_top_level_feature ls
    else if featureQualifies l then some ((splitOnChar '\t' (pyStrip l)).headD [])
    else get_top_level_feature ls

/-- The scanning loop of `get_next_install_sequence_number`: collect every
parsed sequence number and the (last) sequence number of the anchor action
`"InstallFiles"`.  A line with more than three tab-separated fields makes
the unpacking `action, _, seq = parts` raise an uncaught `ValueError`,
embedded as `none`; a line with fewer than three fields, or a third field
`int()` cannot parse, is skipped. -/
def collectSeq : List Str → List Int → Option Int → Option (List Int × Option Int)
  | [], used, anch => some (used, anch)
  | l :: ls, used, anch =>
    match splitOnChar '\t' (pyStrip l) with
    | [a0, _, s2] =>
      match pyInt? s2 with
      | none => collectSeq ls used anch
      | some n =>
        collectSeq ls (used ++ [n]) (if a0 = "InstallFiles".toList then some n else anch)
    | parts => if parts.length < 3 then collectSeq ls used anch else none

/-- Header skipping plus scanning of `get_next_install_sequence_number`:
`data_lines = lines[3:] if lines[0].startswith("s72") else lines`; an empty
file makes `lines[0]` raise `IndexError` (`none`). -/
def parseExecSeq (lines : List Str) : Option (List Int × Option Int) :=
  match lines with
  | [] => none
  | l0 :: _ =>
    collectSeq (if pyStartsWith "s72".toList l0 then lines.drop 3 else lines) [] none

/-- The `while candidate in sequence_numbers: candidate += step` loop with
fuel; `findCandidate` runs it with fuel `used.length + 1`, which provably
always suffices (`findCandidate_isSome`), so the `none` branch is
unreachable and the embedding agrees with the always-terminating loop. -/
def findCandidateAux : Nat → List Int → Int → Option Int
  | 0, _, _ => none
  | fuel + 1, used, c =>
    if c ∈ used then findCandidateAux fuel used (c + 1) else some c

def findCandidate (used : List Int) (c : Int) : Option Int :=
  findCandidateAux (used.length + 1) used c

/-- Embedding of `InstallerDatabaseTables.get_next_install_sequence_number` over the
lines of InstallExecuteSequence.idt; `none` embeds the `ValueError` raised
when the anchor action is absent (and the parse failures above). -/
def get_next_install_sequence_number (lines : List Str) : Option Int :=
  match parseExecSeq lines with
  | none => none
  | some (_, none) => none
  | some (used, some a) => findCandidate used (a + 1)

/-- The id set of `modify_directory_idt`:
`{line.split("\t")[0] for line in lines if "\t" in line}` (membership in the
list below is exactly membership in the Python set). -/
def existingDirs (lines : List Str) : List Str :=
  (lines.filter (fun l => decide ('\t' ∈ l))).map (fun l => (splitOnChar '\t' l).headD [])

/-- Insertion point of `modify_directory_idt`: three lines after the first
line whose stripped form is the Directory header, else the end of the file. -/
def dirInsertIndex (lines : List Str) : Nat :=
  match lines.findIdx? (fun l => pyStrip l = "Directory\tDirectory_Parent\tDefaultDir".toList) with
  | some i => i + 3
  | none => lines.length

/-- Rendering of `f"{entry[0]}\t{entry[1]}\t{entry[2]}\n"`; a Python `None`
parent prints as `None`. -/
def dirLine (e : DirEntry) : Str :=
  e.id ++ '\t' ::
    ((match e.parent with | none => "None".toList | some p => p) ++ '\t' :: (e.name ++ ['\n']))

/-- The insertion loop of `modify_directory_idt`: entries whose id is in the
pre-computed `existing` set are skipped; each inserted entry advances the
insertion index and overwrites `file_dest_dir_key` with its id. -/
def insertDirEntries : List DirEntry → List Str → Nat → Option Str → List Str → List Str × Option Str
  | [], _, _, key, lines => (lines, key)
  | e :: es, existing, idx, key, lines =>
    if e.id ∈ existing then insertDirEntries es existing idx key lines
    else insertDirEntries es existing (idx + 1) (some e.id) (pyInsert lines idx (dirLine e))

/-- Embedding of `InstallerDatabaseTables.modify_directory_idt` over the lines of
Directory.idt: returns the rewritten lines and the returned
`file_dest_dir_key` (which is `None` when no entry was inserted). -/
def modify_directory_idt (arch : Str) (lines : List Str) (destinationPath : Str) :
    List Str × Option Str :=
  insertDirEntries (get_required_directory_entries arch destinationPath)
    (existingDirs lines) (dirInsertIndex lines) none lines

/-- Embedding of `InstallerDatabaseTables.get_last_sequence_from_media_idt`:
`int(lines[3].strip().split("\t")[1])`; `none` embeds the `IndexError` /
`ValueError` on a malformed table. -/
def get_last_sequence_from_media_idt (lines : List Str) : Option Int :=
  match lines.get? 3 with
  | none => none
  | some l =>
    match (splitOnChar '\t' (pyStrip l)).get? 1 with
    | none => none
    | some col => pyInt? col

/-- Embedding of `InstallerDatabaseTables.modify_media_idt`: replace column 1 of the
first data line (`lines[3:]`) with `str(file_sequence_number)` and rebuild
the file; `none` embeds the `IndexError` on a table with no data line or
fewer than two columns. -/
def modify_media_idt (lines : List Str) (fileSequenceNumber : Int) : Option (List Str) :=
  let header := lines.take 3
  match lines.drop 3 with
  | [] => none
  | d0 :: rest =>
    let parts := splitOnChar '\t' (rstripNl d0)
    if 2 ≤ parts.length then
      some (header ++ (joinWith '\t' (parts.set 1 (intToChars fileSequenceNumber)) ++ ['\n']) :: rest)
    else none

/-- A row appended to File.idt by `modify_file_idt`
(`f"{cab}\t{component}\t{dest}\t{size}\t\t\t0\t{seq}\n"`; the two empty
columns and the literal `0` attribute column are fixed by the format
string). -/
structure FileRow where
  fileCabName : Str
  componentName : Str
  fileDestName : Str
  filesize : Int
  sequence : Int
deriving DecidableEq, Repr

/-- A row appended to Component.idt by `modify_component_idt`
(`f"{component}\t{{{guid}}}\t{dir}\t256\t\t{cab}\n"`; the `256` attribute
and empty condition column are fixed).  `directoryId = none` embeds a
Python `None` key, which the format string would print as the literal text
`None`. -/
structure ComponentRow where
  componentName : Str
  guid : Str
  directoryId : Option Str
  keyFile : Str
deriving DecidableEq, Repr

/-- The tables touched by `file_dropper`, each in the representation its
operations need: Feature.idt, Directory.idt and Media.idt as raw lines
(their code reads them positionally), File.idt, Component.idt and
FeatureComponents.idt as appended rows. -/
structure DropState where
  feature : List Str
  directory : List Str
  file : List FileRow
  component : List ComponentRow
  featureComponents : List (Str × Str)
  media : List Str
deriving DecidableEq, Repr

/-- `InstallerDatabaseTables.file_dropper`, with the external inputs
(`os.path.getsize` and `uuid.uuid4`) passed in as `filesize` and `guid`.
Returns the state after the operation together with `some` allocated file
sequence number on success; on an exception (`none`) the state keeps
exactly the writes Python performed before raising. -/
def file_dropper (arch : Str) (st : DropState)
    (componentName fileCabName fileDestName fileDestDir : Str)
    (filesize : Int) (guid : Str) : DropState × Option Int :=
  match get_last_sequence_from_media_idt st.media with
  | none => (st, none)
  | some lastSeq =>
    let fileSequenceNumber := lastSeq + 1
    match get_top_level_feature st.feature with
    | none => (st, none)
    | some topFeature =>
      let dirRes := modify_directory_idt arch st.directory fileDestDir
      let st1 : DropState :=
        { st with
          directory := dirRes.1
          file := st.file ++ [⟨fileCabName, componentName, fileDestName, filesize, fileSequenceNumber⟩]
          component := st.component ++ [⟨componentName, guid, dirRes.2, fileCabName⟩]
          featureComponents := st.featureComponents ++ [(topFeature, componentName)] }
      match modify_media_idt st1.media fileSequenceNumber with
      | none => (st1, none)
      | some media1 => ({ st1 with media := media1 }, some fileSequenceNumber)

/-- A row appended to CustomAction.idt by `modify_custom_action_idt`
(the three-line header synthesized when the file is missing carries no row
data and is not represented). -/
structure CustomActionRow where
  actionName : Str
  actionType : Nat
  actionSource : Str
  actionTarget : Str
deriving DecidableEq, Repr

/-- The tables touched by the custom-action operations: Binary.idt rows
(`f"{name}\tBinary.{name}\n"`), CustomAction.idt rows, and
InstallExecuteSequence.idt as raw lines (its code parses them). -/
structure ActionTables where
  binary : List (Str × Str)
  customAction : List CustomActionRow
  execSeq : List Str
deriving DecidableEq, Repr

/-- Embedding of `os.path.basename(file_path).split(".")[0]` from `modify_binary_idt`
(POSIX basename: the part after the last `/`). -/
def binaryKey (filePath : Str) : Str :=
  (splitOnChar '.' ((splitOnChar '/' filePath).getLastD [])).headD []

/-- Embedding of `InstallerDatabaseTables.modify_install_execute_sequence_idt`: allocate
the next sequence number and append
`f"{action_name}\t{install_condition}\t{n}\n"` with an empty condition. -/
def modify_install_execute_sequence_idt (lines : List Str) (actionName : Str) :
    Option (List Str) :=
  match get_next_install_sequence_number lines with
  | none => none
  | some n => some (lines ++ [actionName ++ '\t' :: '\t' :: intToChars n ++ ['\n']])

/-- Embedding of `InstallerDatabaseTables.run_custom_exe_action` (the `shutil.copy` of
the payload into the Binary staging directory is an external file-system
effect outside the tables).  The Binary row is appended before the
sequence allocation, exactly as in the source; a `false` flag embeds the
`ValueError` escaping from `get_next_install_sequence_number`. -/
def run_custom_exe_action (st : ActionTables) (filePath actionName : Str)
    (isAsync : Bool) (exeArgs : Str) : ActionTables × Bool :=
  let actionSource := binaryKey filePath
  let st1 : ActionTables :=
    { st with binary := st.binary ++ [(actionSource, "Binary.".toList ++ actionSource)] }
  match modify_install_execute_sequence_idt st1.execSeq actionName with
  | none => (st1, false)
  | some lines1 =>
    let actionType : Nat := if isAsync then 2 + 192 else 2
    ({ st1 with
        execSeq := lines1
        customAction := st1.customAction ++ [⟨actionName, actionType, actionSource, exeArgs⟩] },
      true)

/-- Embedding of `InstallerDatabaseTables.run_custom_dll_action`. -/
def run_custom_dll_action (st : ActionTables) (filePath actionName : Str)
    (isAsync : Bool) (exportedFunction : Str) : ActionTables × Bool :=
  let actionSource := binaryKey filePath
  let st1 : ActionTables :=
    { st with binary := st.binary ++ [(actionSource, "Binary.".toList ++ actionSource)] }
  match modify_install_execute_sequence_idt st1.execSeq actionName with
  | none => (st1, false)
  | some lines1 =>
    let actionType : Nat := if isAsync then 1 + 64 else 1
    ({ st1 with
        execSeq := lines1
        customAction := st1.customAction ++ [⟨actionName, actionType, actionSource, exportedFunction⟩] },
      true)

/-- Embedding of `InstallerDatabaseTables.run_custom_preinstalled_exe_action`: type 226,
source `INSTALLDIR`, no Binary row, no asynchronous variant. -/
def run_custom_preinstalled_exe_action (st : ActionTables) (actionName command : Str) :
    ActionTables × Bool :=
  match modify_install_execute_sequence_idt st.execSeq actionName with
  | none => (st, false)
  | some lines1 =>
    ({ st with
        execSeq := lines1
        customAction :=
          st.customAction ++ [⟨actionName, 226, "INSTALLDIR".toList, command⟩] },
      true)

/-- Decidable readiness of Media.idt for the positional write of
`modify_media_idt` followed by the re-parse of
`get_last_sequence_from_media_idt`: a fourth line exists, it splits into at
least two tab-separated columns, and its first column contains a
non-whitespace character (so that `strip()` cannot eat across the first
tab). -/
def mediaWriteReady (lines : List Str) : Bool :=
  match lines.get? 3 with
  | none => false
  | some d =>
    match splitOnChar '\t' (rstripNl d) with
    | c0 :: _ :: _ => c0.any (fun c => !(pySpace c))
    | _ => false

/-- Spec-side view of `get_top_level_feature` (stated from the words of the claim, for the refinement theorem `C10_top_level_feature_skip`): among the
lines that are not skipped, the first whose second column strips to empty
yields its first column. -/
def topLevelFeatureView (lines : List Str) : Option Str :=
  ((lines.filter (fun l => !(featureSkip l))).find? featureQualifies).map
    (fun l => (splitOnChar '\t' (pyStrip l)).headD [])

/-- Parent id carried by the tail loop of `get_required_directory_entries`
after consuming the given segments (used to state how resolution of a path
extends resolution of its segment-wise ancestors). -/
def tailPid (pid : Option Str) (parts : List Str) : Option Str :=
  parts.foldl (fun acc part => some (makeDirectoryId part acc)) pid

/-! Concrete table fixtures (idt files as `readlines()` would return them),
used by the closed evaluation theorems and witnesses below. -/

def featureLines : List Str :=
  ["Feature\tFeature_Parent\tTitle\tDescription\tDisplay\tLevel\n".toList,
   "s38\tS38\tL64\tL255\tI2\ti2\n".toList,
   "Feature\tFeature\n".toList,
   "MainFeature\t\tMain\t\t1\t1\n".toList]

/-- Feature table whose only row with an empty parent column has an id that
begins with the letter s, so the skip condition hides it. -/
def featureLinesHidden : List Str :=
  ["Feature\tFeature_Parent\tTitle\tDescription\tDisplay\tLevel\n".toList,
   "s38\tS38\tL64\tL255\tI2\ti2\n".toList,
   "Feature\tFeature\n".toList,
   "sTopFeat\t\tMain\t\t1\t1\n".toList]

def mediaLines : List Str :=
  ["DiskId\tLastSequence\tDiskPrompt\tCabinet\tVolumeLabel\tSource\n".toList,
   "i2\ti4\tL64\tS255\tS32\tS72\n".toList,
   "Media\tDiskId\n".toList,
   "1\t10\t\t#cab1.cab\t\t\n".toList]

/-- Directory table already holding every node that the destination
`desktop` resolves to. -/
def directoryLines : List Str :=
  ["Directory\tDirectory_Parent\tDefaultDir\n".toList,
   "s72\tS72\tl255\n".toList,
   "Directory\tDirectory\n".toList,
   "TARGETDIR\t\tSourceDir\n".toList,
   "DesktopFolder\tTARGETDIR\tDesktop\n".toList]

def execLines : List Str :=
  ["Action\tCondition\tSequence\n".toList,
   "s72\tS255\tI2\n".toList,
   "InstallExecuteSequence\tAction\n".toList,
   "InstallFiles\t\t4000\n".toList,
   "Other\t\t4001\n".toList]

/-- Execution-sequence table without the anchor action `InstallFiles`. -/
def execLinesNoAnchor : List Str :=
  ["Action\tCondition\tSequence\n".toList,
   "s72\tS255\tI2\n".toList,
   "InstallExecuteSequence\tAction\n".toList,
   "RegisterProduct\t\t6000\n".toList]

/-- Execution-sequence table in which the anchor is at 4000 and every
candidate from 4001 to 4010 is already taken. -/
def execLinesDense : List Str :=
  ["Action\tCondition\tSequence\n".toList,
   "s72\tS255\tI2\n".toList,
   "InstallExecuteSequence\tAction\n".toList,
   "InstallFiles\t\t4000\n".toList,
   "A1\t\t4001\n".toList, "A2\t\t4002\n".toList, "A3\t\t4003\n".toList,
   "A4\t\t4004\n".toList, "A5\t\t4005\n".toList, "A6\t\t4006\n".toList,
   "A7\t\t4007\n".toList, "A8\t\t4008\n".toList, "A9\t\t4009\n".toList,
   "A10\t\t4010\n".toList]

def dropStateC : DropState :=
  { feature := featureLines
    directory := directoryLines
    file := [⟨"old.bin".toList, "OldComponent".toList, "old.exe".toList, 5, 10⟩]
    component := []
    featureComponents := []
    media := mediaLines }

def actionStateC : ActionTables :=
  { binary := [], customAction := [], execSeq := execLines }

def actionStateNoAnchor : ActionTables :=
  { binary := [], customAction := [], execSeq := execLinesNoAnchor }

/-! Helper lemmas about the Python string primitives. -/

theorem splitOnChar_ne_nil (sep : Char) (l : Str) : splitOnChar sep l ≠ [] := by
  induction l with
  | nil => simp [splitOnChar]
  | cons c cs ih =>
    unfold splitOnChar
    by_cases h : c = sep
    · simp [h]
    · simp only [h, if_false]
      cases hcs : splitOnChar sep cs <;> simp

theorem mem_splitOnChar_not_sep (sep : Char) (l : Str) :
    ∀ f ∈ splitOnChar sep l, sep ∉ f := by
  induction l with
  | nil => intro f hf; simp [splitOnChar] at hf; simp [hf]
  | cons c cs ih =>
    intro f hf
    unfold splitOnChar at hf
    by_cases h : c = sep
    · simp only [h, if_true] at hf
      rcases List.mem_cons.mp hf with rfl | hf'
      · simp
      · exact ih f hf'
    · simp only [h, if_false] at hf
      cases hcs : splitOnChar sep cs with
      | nil => exact absurd hcs (splitOnChar_ne_nil sep cs)
      | cons h0 t0 =>
        rw [hcs] at hf
        rcases List.mem_cons.mp hf with rfl | hf'
        · intro hmem
          rcases List.mem_cons.mp hmem with rfl | hmem
          · exact h rfl
          · exact ih h0 (hcs ▸ List.mem_cons_self h0 t0) hmem
        · exact ih f (hcs ▸ List.mem_cons_of_mem h0 hf')

theorem splitOnChar_append (sep : Char) (a b : Str) :
    splitOnChar sep (a ++ sep :: b) = splitOnChar sep a ++ splitOnChar sep b := by
  induction a with
  | nil => simp [splitOnChar]
  | cons c cs ih =>
    by_cases h : c = sep
    · rw [List.cons_append]
      unfold splitOnChar
      simp only [h, if_true]
      rw [ih, ← splitOnChar.eq_def]
      simp
    · rw [List.cons_append]
      unfold splitOnChar
      simp only [h, if_false]
      rw [ih, ← splitOnChar.eq_def]
      cases hcs : splitOnChar sep cs with
      | nil => exact absurd hcs (splitOnChar_ne_nil sep cs)
      | cons h0 t0 => simp

theorem splitOnChar_of_not_mem (sep : Char) (a : Str) (h : sep ∉ a) :
    splitOnChar sep a = [a] := by
  induction a with
  | nil => simp [splitOnChar]
  | cons c cs ih =>
    have hc : c ≠ sep := fun e => h (e ▸ List.mem_cons_self c cs)
    have hcs : sep ∉ cs := fun e => h (List.mem_cons_of_mem c e)
    unfold splitOnChar
    simp [hc, ih hcs]

theorem splitOnChar_append_of_not_mem (sep : Char) (a b : Str) (h : sep ∉ a) :
    splitOnChar sep (a ++ sep :: b) = a :: splitOnChar sep b := by
  rw [splitOnChar_append, splitOnChar_of_not_mem sep a h]
  rfl

theorem dropWhile_append_all (p : Char → Bool) (a b : Str) (h : ∀ c ∈ a, p c = true) :
    (a ++ b).dropWhile p = b.dropWhile p := by
  induction a with
  | nil => rfl
  | cons c cs ih =>
    have hc := h c (List.mem_cons_self c cs)
    simp only [List.cons_append, List.dropWhile_cons, hc, if_true]
    exact ih (fun x hx => h x (List.mem_cons_of_mem c hx))

theorem dropWhile_append_not_all (p : Char → Bool) (a b : Str)
    (h : ∃ c ∈ a, p c = false) : (a ++ b).dropWhile p = a.dropWhile p ++ b := by
  induction a with
  | nil => simp at h
  | cons c cs ih =>
    by_cases hc : p c = true
    · simp only [List.cons_append, List.dropWhile_cons, hc, if_true]
      apply ih
      rcases h with ⟨d, hd, hdf⟩
      rcases List.mem_cons.mp hd with rfl | hd
      · rw [hc] at hdf; cases hdf
      · exact ⟨d, hd, hdf⟩
    · have hc' : p c = false := by revert hc; cases p c <;> simp
      simp [List.dropWhile_cons, hc']

theorem dropWhile_eq_self_of_all_not (p : Char → Bool) (a : Str)
    (h : ∀ c ∈ a, p c = false) : a.dropWhile p = a := by
  cases a with
  | nil => rfl
  | cons c cs => simp [List.dropWhile_cons, h c (List.mem_cons_self c cs)]

theorem rstripBy_append_all (p : Char → Bool) (a b : Str) (h : ∀ c ∈ b, p c = true) :
    rstripBy p (a ++ b) = rstripBy p a := by
  unfold rstripBy
  rw [List.reverse_append, dropWhile_append_all]
  intro c hc
  exact h c (List.mem_reverse.mp hc)

theorem rstripBy_append_not_all (p : Char → Bool) (a b : Str)
    (h : ∃ c ∈ b, p c = false) : rstripBy p (a ++ b) = a ++ rstripBy p b := by
  unfold rstripBy
  rw [List.reverse_append, dropWhile_append_not_all, List.reverse_append,
    List.reverse_reverse]
  rcases h with ⟨c, hc, hcf⟩
  exact ⟨c, List.mem_reverse.mpr hc, hcf⟩

theorem rstripBy_eq_self (p : Char → Bool) (a : Str) (h : ∀ c ∈ a, p c = false) :
    rstripBy p a = a := by
  unfold rstripBy
  rw [dropWhile_eq_self_of_all_not, List.reverse_reverse]
  intro c hc
  exact h c (List.mem_reverse.mp hc)

theorem pyStrip_eq_self (a : Str) (h : ∀ c ∈ a, pySpace c = false) : pyStrip a = a := by
  unfold pyStrip
  rw [dropWhile_eq_self_of_all_not pySpace a h, rstripBy_eq_self pySpace a h]

theorem isDigit_char_ofNat (d : Nat) (h : d < 10) :
    (Char.ofNat (48 + d)).isDigit = true ∧ (Char.ofNat (48 + d)).toNat = 48 + d := by
  interval_cases d <;> exact ⟨by decide, by decide⟩

theorem ne_of_isDigit (c x : Char) (h : c.isDigit = true) (hx : x.isDigit = false) :
    c ≠ x := by
  rintro rfl
  rw [h] at hx
  cases hx

theorem pySpace_eq_false_of_isDigit (c : Char) (h : c.isDigit = true) :
    pySpace c = false := by
  by_contra hb
  have hp : pySpace c = true := by revert hb; cases pySpace c <;> simp
  simp only [pySpace, Bool.or_eq_true, decide_eq_true_eq] at hp
  rcases hp with ((((rfl | rfl) | rfl) | rfl) | rfl) | rfl <;>
    exact absurd h (by decide)

theorem natToCharsAux_correct (fuel : Nat) :
    ∀ n, n < fuel →
      natToCharsAux fuel n ≠ [] ∧ (∀ c ∈ natToCharsAux fuel n, c.isDigit = true) ∧
        (natToCharsAux fuel n).foldl (fun a c => a * 10 + (c.toNat - 48)) 0 = n := by
  induction fuel with
  | zero => intro n h; omega
  | succ f ih =>
    intro n h
    unfold natToCharsAux
    by_cases h10 : n < 10
    · simp only [h10, if_true]
      obtain ⟨hd, ht⟩ := isDigit_char_ofNat n h10
      refine ⟨by simp, ?_, ?_⟩
      · intro c hc
        rcases List.mem_singleton.mp hc with rfl
        exact hd
      · simp [List.foldl, ht]
    · simp only [h10, if_false]
      have hdiv : n / 10 < f := by
        have h1 : 0 < n := by omega
        have h2 := Nat.div_lt_self h1 (by norm_num : 1 < 10)
        omega
      obtain ⟨hne, hdig, hval⟩ := ih (n / 10) hdiv
      have hmod : n % 10 < 10 := Nat.mod_lt _ (by norm_num)
      obtain ⟨hd, ht⟩ := isDigit_char_ofNat (n % 10) hmod
      refine ⟨by simp, ?_, ?_⟩
      · intro c hc
        rcases List.mem_append.mp hc with h1 | h2
        · exact hdig c h1
        · rcases List.mem_singleton.mp h2 with rfl
          exact hd
      · rw [List.foldl_append, hval]
        simp only [List.foldl, ht]
        omega

theorem digitsToNat?_natToChars (n : Nat) : digitsToNat? (natToChars n) = some n := by
  obtain ⟨hne, hdig, hval⟩ := natToCharsAux_correct (n + 1) n (by omega)
  unfold natToChars digitsToNat?
  rw [if_neg, if_pos]
  · rw [hval]
  · rw [List.all_eq_true]
    intro c hc
    exact hdig c hc
  · simp only [List.isEmpty_iff]
    exact hne

theorem natToChars_no_space (n : Nat) : ∀ c ∈ natToChars n, pySpace c = false := by
  obtain ⟨_, hdig, _⟩ := natToCharsAux_correct (n + 1) n (by omega)
  intro c hc
  exact pySpace_eq_false_of_isDigit c (hdig c hc)

theorem natToChars_no_tab (n : Nat) : '\t' ∉ natToChars n := by
  obtain ⟨_, hdig, _⟩ := natToCharsAux_correct (n + 1) n (by omega)
  intro hmem
  exact absurd (hdig '\t' hmem) (by decide)

theorem natToChars_ne_nil (n : Nat) : natToChars n ≠ [] :=
  (natToCharsAux_correct (n + 1) n (by omega)).1

theorem intToChars_no_space (i : Int) : ∀ c ∈ intToChars i, pySpace c = false := by
  unfold intToChars
  by_cases hi : i < 0
  · simp only [hi, if_true]
    intro c hc
    rcases List.mem_cons.mp hc with rfl | hc
    · decide
    · exact natToChars_no_space _ c hc
  · simp only [hi, if_false]
    exact natToChars_no_space _

theorem intToChars_no_tab (i : Int) : '\t' ∉ intToChars i := by
  unfold intToChars
  by_cases hi : i < 0
  · simp only [hi, if_true]
    intro hmem
    rcases List.mem_cons.mp hmem with h | h
    · cases h
    · exact natToChars_no_tab _ h
  · simp only [hi, if_false]
    exact natToChars_no_tab _

theorem intToChars_ne_nil (i : Int) : intToChars i ≠ [] := by
  unfold intToChars
  by_cases hi : i < 0
  · simp [hi]
  · simp [hi, natToChars_ne_nil]

theorem pyInt?_intToChars (i : Int) : pyInt? (intToChars i) = some i := by
  have hstrip : pyStrip (intToChars i) = intToChars i :=
    pyStrip_eq_self _ (intToChars_no_space i)
  by_cases hi : i < 0
  · have hrep : intToChars i = '-' :: natToChars i.natAbs := by
      unfold intToChars
      simp [hi]
    have hstrip2 : pyStrip ('-' :: natToChars i.natAbs) = '-' :: natToChars i.natAbs :=
      hrep ▸ hstrip
    simp only [pyInt?, hrep, hstrip2, List.head?_cons, List.tail_cons]
    rw [if_pos trivial, digitsToNat?_natToChars]
    simp only [Option.map_some', Int.ofNat_eq_coe]
    congr 1
    omega
  · have hrep : intToChars i = natToChars i.toNat := by
      unfold intToChars
      simp [hi]
    have hstrip2 : pyStrip (natToChars i.toNat) = natToChars i.toNat :=
      hrep ▸ hstrip
    obtain ⟨hne, hdig, _⟩ := natToCharsAux_correct (i.toNat + 1) i.toNat (by omega)
    cases hD : natToChars i.toNat with
    | nil =>
      rw [natToChars] at hD
      exact absurd hD hne
    | cons c rest =>
      have hcm : c ∈ natToChars i.toNat := by
        rw [hD]
        exact List.mem_cons_self c rest
      rw [natToChars] at hcm
      have hcd : c.isDigit = true := hdig c hcm
      have hc1 : c ≠ '-' := ne_of_isDigit c '-' hcd (by decide)
      have hc2 : c ≠ '+' := ne_of_isDigit c '+' hcd (by decide)
      rw [hD] at hstrip2
      simp only [pyInt?, hrep, hD, hstrip2, List.head?_cons]
      rw [if_neg (by simp [hc1]), if_neg (by simp [hc2]), ← hD,
        digitsToNat?_natToChars]
      simp only [Option.map_some', Int.ofNat_eq_coe]
      congr 1
      omega

theorem mem_pyInsert_self {α : Type} (l : List α) (n : Nat) (a : α) :
    a ∈ pyInsert l n a := by
  induction l generalizing n with
  | nil => cases n <;> simp [pyInsert]
  | cons x xs ih =>
    cases n with
    | zero => simp [pyInsert]
    | succ m =>
      simp only [pyInsert, List.mem_cons]
      exact Or.inr (ih m)

theorem mem_pyInsert_of_mem {α : Type} (l : List α) (n : Nat) (a b : α)
    (h : b ∈ l) : b ∈ pyInsert l n a := by
  induction l generalizing n with
  | nil => simp at h
  | cons x xs ih =>
    cases n with
    | zero =>
      simp only [pyInsert, List.mem_cons]
      exact Or.inr (List.mem_cons.mp h)
    | succ m =>
      simp only [pyInsert, List.mem_cons]
      rcases List.mem_cons.mp h with rfl | h'
      · exact Or.inl rfl
      · exact Or.inr (ih m h')

theorem findCandidateAux_some_spec :
    ∀ fuel (used : List Int) (c r : Int), findCandidateAux fuel used c = some r →
      r ∉ used ∧ c ≤ r ∧ ∀ v : Int, c ≤ v → v < r → v ∈ used := by
  intro fuel
  induction fuel with
  | zero => intro used c r h; cases h
  | succ f ih =>
    intro used c r h
    unfold findCandidateAux at h
    by_cases hc : c ∈ used
    · rw [if_pos hc] at h
      obtain ⟨h1, h2, h3⟩ := ih used (c + 1) r h
      refine ⟨h1, by omega, ?_⟩
      intro v hv1 hv2
      by_cases hvc : v = c
      · exact hvc ▸ hc
      · exact h3 v (by omega) hv2
    · rw [if_neg hc] at h
      cases h
      exact ⟨hc, le_refl c, fun v h1 h2 => absurd (lt_of_le_of_lt h1 h2) (lt_irrefl c)⟩

theorem findCandidateAux_none_mem :
    ∀ fuel (used : List Int) (c : Int), findCandidateAux fuel used c = none →
      ∀ k : Nat, k < fuel → c + k ∈ used := by
  intro fuel
  induction fuel with
  | zero => intro used c _ k hk; omega
  | succ f ih =>
    intro used c h k hk
    unfold findCandidateAux at h
    by_cases hc : c ∈ used
    · rw [if_pos hc] at h
      cases k with
      | zero => simpa using hc
      | succ j =>
        have := ih used (c + 1) h j (by omega)
        have heq : c + (↑(j + 1) : Int) = (c + 1) + ↑j := by push_cast; ring
        rw [heq]
        exact this
    · rw [if_neg hc] at h
      cases h

theorem findCandidate_isSome (used : List Int) (c : Int) :
    ∃ r, findCandidate used c = some r := by
  cases h : findCandidateAux (used.length + 1) used c with
  | some r => exact ⟨r, h⟩
  | none =>
    exfalso
    have hm := findCandidateAux_none_mem _ used c h
    have hinj : Function.Injective (fun k : Nat => c + (k : Int)) := by
      intro a b hab
      simp only at hab
      omega
    have hnd : ((List.range (used.length + 1)).map (fun k : Nat => c + (k : Int))).Nodup :=
      (List.nodup_range _).map hinj
    have hsub : ((List.range (used.length + 1)).map (fun k : Nat => c + (k : Int))) ⊆ used := by
      intro x hx
      rcases List.mem_map.mp hx with ⟨k, hk, rfl⟩
      exact hm k (List.mem_range.mp hk)
    have hlen := (List.subperm_of_subset hnd hsub).length_le
    simp only [List.length_map, List.length_range] at hlen
    omega

theorem dropWhile_tab_not_mem (a : Str) (h : '\t' ∉ a) :
    '\t' ∉ a.dropWhile pySpace := fun hm =>
  h ((List.dropWhile_sublist pySpace).subset hm)

theorem strip_join_field1 (c0 D : Str) (rest : List Str)
    (hc0tab : '\t' ∉ c0) (hc0 : ∃ c ∈ c0, pySpace c = false)
    (hDne : D ≠ []) (hDs : ∀ c ∈ D, pySpace c = false) (hDtab : '\t' ∉ D) :
    (splitOnChar '\t' (pyStrip (joinWith '\t' (c0 :: D :: rest) ++ ['\n']))).get? 1 =
      some D := by
  have hJ : joinWith '\t' (c0 :: D :: rest) = c0 ++ '\t' :: joinWith '\t' (D :: rest) := rfl
  have hc0'tab : '\t' ∉ c0.dropWhile pySpace := dropWhile_tab_not_mem c0 hc0tab
  set M := joinWith '\t' (D :: rest) with hMdef
  have hMsh : M = D ∨ ∃ M2, M = D ++ '\t' :: M2 := by
    rw [hMdef]
    cases rest with
    | nil => exact Or.inl rfl
    | cons r rs => exact Or.inr ⟨joinWith '\t' (r :: rs), rfl⟩
  obtain ⟨d0, hd0D, hd0⟩ : ∃ c ∈ D, pySpace c = false := by
    cases D with
    | nil => exact absurd rfl hDne
    | cons x xs => exact ⟨x, List.mem_cons_self x xs, hDs x (List.mem_cons_self x xs)⟩
  have hd0M : ∃ c ∈ M ++ ['\n'], pySpace c = false := by
    rcases hMsh with hM | ⟨M2, hM⟩
    · exact ⟨d0, List.mem_append_left _ (hM ▸ hd0D), hd0⟩
    · refine ⟨d0, List.mem_append_left _ ?_, hd0⟩
      rw [hM]
      exact List.mem_append_left _ hd0D
  have hstrip : pyStrip (joinWith '\t' (c0 :: D :: rest) ++ ['\n']) =
      c0.dropWhile pySpace ++ '\t' :: rstripBy pySpace M := by
    unfold pyStrip
    have hshape : (joinWith '\t' (c0 :: D :: rest) ++ ['\n']) =
        c0 ++ ('\t' :: (M ++ ['\n'])) := by
      rw [hJ]
      simp
    rw [hshape, dropWhile_append_not_all pySpace c0 _ hc0]
    have h1 : c0.dropWhile pySpace ++ ('\t' :: (M ++ ['\n'])) =
        (c0.dropWhile pySpace ++ ['\t']) ++ (M ++ ['\n']) := by simp
    rw [h1, rstripBy_append_not_all pySpace _ _ hd0M,
      rstripBy_append_all pySpace M ['\n']
        (by intro c hc; rcases List.mem_singleton.mp hc with rfl; decide)]
    simp
  have hMstrip : rstripBy pySpace M = D ∨ ∃ T, rstripBy pySpace M = D ++ '\t' :: T := by
    rcases hMsh with hM | ⟨M2, hM⟩
    · rw [hM, rstripBy_eq_self pySpace D hDs]
      exact Or.inl rfl
    · by_cases hx : ∃ c ∈ M2, pySpace c = false
      · right
        refine ⟨rstripBy pySpace M2, ?_⟩
        rcases hx with ⟨e, heM, he⟩
        rw [hM, rstripBy_append_not_all pySpace D ('\t' :: M2)
          ⟨e, List.mem_cons_of_mem _ heM, he⟩]
        have h2 : ('\t' :: M2 : Str) = ['\t'] ++ M2 := rfl
        rw [h2, rstripBy_append_not_all pySpace ['\t'] M2 ⟨e, heM, he⟩]
        rfl
      · left
        push_neg at hx
        have hall : ∀ c ∈ ('\t' :: M2 : Str), pySpace c = true := by
          intro c hc
          rcases List.mem_cons.mp hc with rfl | hc
          · decide
          · have := hx c hc
            revert this
            cases pySpace c <;> simp
        rw [hM, rstripBy_append_all pySpace D ('\t' :: M2) hall,
          rstripBy_eq_self pySpace D hDs]
  rcases hMstrip with hMs | ⟨T, hMs⟩
  · rw [hstrip, hMs, splitOnChar_append_of_not_mem '\t' _ D hc0'tab,
      splitOnChar_of_not_mem '\t' D hDtab]
    rfl
  · have hsh2 : c0.dropWhile pySpace ++ '\t' :: (D ++ '\t' :: T) =
        c0.dropWhile pySpace ++ '\t' :: D ++ '\t' :: T := by simp
    rw [hstrip, hMs, splitOnChar_append_of_not_mem '\t' _ _ hc0'tab,
      splitOnChar_append_of_not_mem '\t' D T hDtab]
    rfl

theorem modify_media_roundtrip (lines : List Str) (n : Int)
    (h : mediaWriteReady lines = true) :
    ∃ lines', modify_media_idt lines n = some lines' ∧
      get_last_sequence_from_media_idt lines' = some n := by
  rcases lines with _ | ⟨l0, _ | ⟨l1, _ | ⟨l2, _ | ⟨d, lr⟩⟩⟩⟩ <;>
    simp only [mediaWriteReady, List.get?] at h
  · exact absurd h (by decide)
  · exact absurd h (by decide)
  · exact absurd h (by decide)
  · exact absurd h (by decide)
  cases hs : splitOnChar '\t' (rstripNl d) with
  | nil => rw [hs] at h; cases h
  | cons c0 t1 =>
    cases t1 with
    | nil => rw [hs] at h; cases h
    | cons c1 rest =>
      rw [hs] at h
      have hc0 : ∃ c ∈ c0, pySpace c = false := by
        rcases List.any_eq_true.mp h with ⟨c, hcm, hcb⟩
        refine ⟨c, hcm, ?_⟩
        revert hcb
        cases pySpace c <;> simp
      have hc0tab : '\t' ∉ c0 :=
        mem_splitOnChar_not_sep '\t' (rstripNl d) c0 (hs ▸ List.mem_cons_self c0 _)
      refine ⟨l0 :: l1 :: l2 ::
        (joinWith '\t' (c0 :: intToChars n :: rest) ++ ['\n']) :: lr, ?_, ?_⟩
      · unfold modify_media_idt
        simp only [List.take, List.drop, hs]
        rw [if_pos (by simp)]
        rfl
      · unfold get_last_sequence_from_media_idt
        simp only [List.get?]
        rw [strip_join_field1 c0 (intToChars n) rest hc0tab hc0
          (intToChars_ne_nil n) (intToChars_no_space n) (intToChars_no_tab n)]
        exact pyInt?_intToChars n

theorem folderAList_tabFree :
    ∀ kv ∈ folderAList,
      ('\t' ∉ (strTriple kv.2.1).1 ∧ '\t' ∉ (strTriple kv.2.1).2.1) ∧
        ('\t' ∉ (strTriple kv.2.2).1 ∧ '\t' ∉ (strTriple kv.2.2).2.1) := by
  decide

theorem folderMap_tabFree (archL key : Str) (t : Str × Str × Str)
    (h : folderMap archL key = some t) : '\t' ∉ t.1 ∧ '\t' ∉ t.2.1 := by
  unfold folderMap at h
  cases hf : folderAList.find? (fun kv => kv.1.toList = key) with
  | none => rw [hf] at h; cases h
  | some kv =>
    rw [hf] at h
    injection h with h2
    subst h2
    have hm := folderAList_tabFree kv (List.mem_of_find?_eq_some hf)
    by_cases ha : archL = "x64".toList
    · simp only [ha, if_pos rfl]
      exact hm.1
    · rw [if_neg ha]
      exact hm.2

theorem addFolder_tabFree (archL : Str) :
    ∀ fuel (entries : List DirEntry) (key : Str),
      (∀ e ∈ entries, '\t' ∉ e.id) →
      (∀ e ∈ (addFolder archL fuel entries key).1, '\t' ∉ e.id) ∧
        (∀ s, (addFolder archL fuel entries key).2 = some s → '\t' ∉ s) := by
  intro fuel
  induction fuel with
  | zero =>
    intro entries key hent
    refine ⟨?_, ?_⟩
    · simpa [addFolder] using hent
    · simp [addFolder]
  | succ f ih =>
    intro entries key hent
    cases hm : folderMap archL (pyLower key) with
    | none =>
      rw [addFolder]
      simp only [hm]
      exact ⟨hent, by simp⟩
    | some t =>
      obtain ⟨fid, pid, ddir⟩ := t
      obtain ⟨hfid, _⟩ := folderMap_tabFree archL (pyLower key) _ hm
      have hent1 : ∀ e ∈ (if pid ≠ [] ∧ pid ≠ "TARGETDIR".toList ∧ pyLower pid ≠ pyLower key
          then (addFolder archL f entries pid).1 else entries), '\t' ∉ e.id := by
        split
        · exact (ih entries pid hent).1
        · exact hent
      rw [addFolder]
      simp only [hm]
      by_cases ha : ((if pid ≠ [] ∧ pid ≠ "TARGETDIR".toList ∧ pyLower pid ≠ pyLower key
          then (addFolder archL f entries pid).1 else entries).any (fun e => e.id = fid)) = true
      · simp only [ha, eq_self_iff_true, if_true]
        exact ⟨hent1, fun s hs => by injection hs with hs2; subst hs2; exact hfid⟩
      · rw [if_neg ha]
        refine ⟨?_, fun s hs => by injection hs with hs2; subst hs2; exact hfid⟩
        intro e he
        rcases List.mem_append.mp he with h1 | h2
        · exact hent1 e h1
        · rcases List.mem_singleton.mp h2 with rfl
          exact hfid

theorem makeDirectoryId_tabFree (part : Str) (pid : Option Str)
    (hp : ∀ p, pid = some p → '\t' ∉ p) : '\t' ∉ makeDirectoryId part pid := by
  have hclean : '\t' ∉ (pyTitle part).filter Char.isAlphanum := by
    intro hmem
    have := (List.mem_filter.mp hmem).2
    exact absurd this (by decide)
  unfold makeDirectoryId
  cases pid with
  | none => exact hclean
  | some p =>
    by_cases hpe : p = []
    · simp only [hpe, if_pos rfl]
      exact hclean
    · simp only [if_neg hpe]
      intro hmem
      rcases List.mem_append.mp hmem with h1 | h2
      · exact hp p rfl h1
      · rcases List.mem_cons.mp h2 with h3 | h4
        · cases h3
        · exact hclean h4

theorem resolveTail_tabFree :
    ∀ (parts : List Str) (pid : Option Str), (∀ p, pid = some p → '\t' ∉ p) →
      ∀ e ∈ resolveTail pid parts, '\t' ∉ e.id := by
  intro parts
  induction parts with
  | nil => intro pid _ e he; simp [resolveTail] at he
  | cons part rest ih =>
    intro pid hp e he
    unfold resolveTail at he
    have hid : '\t' ∉ makeDirectoryId part pid := makeDirectoryId_tabFree part pid hp
    rcases List.mem_cons.mp he with rfl | he'
    · exact hid
    · exact ih (some (makeDirectoryId part pid)) (fun p hp' => by cases hp'; exact hid) e he'

theorem needed_tabFree (arch dest : Str) :
    ∀ e ∈ get_required_directory_entries arch dest, '\t' ∉ e.id := by
  intro e he
  unfold get_required_directory_entries at he
  cases hsp : splitOnChar '\\' (dest.map (fun c => if c = '/' then '\\' else c)) with
  | nil => rw [hsp] at he; simp at he
  | cons p0 rest =>
    rw [hsp] at he
    simp only at he
    obtain ⟨h1, h2⟩ := addFolder_tabFree (pyLower arch) addFolderFuel [] p0 (by simp)
    rcases List.mem_append.mp he with hea | heb
    · exact h1 e hea
    · exact resolveTail_tabFree rest _ (fun p hp => h2 p hp) e heb

theorem mem_lines_insertDirEntries (es : List DirEntry) (existing : List Str)
    (idx : Nat) (key : Option Str) (lines : List Str) (l : Str) (h : l ∈ lines) :
    l ∈ (insertDirEntries es existing idx key lines).1 := by
  induction es generalizing idx key lines with
  | nil => exact h
  | cons e es ih =>
    unfold insertDirEntries
    by_cases he : e.id ∈ existing
    · rw [if_pos he]
      exact ih idx key lines h
    · rw [if_neg he]
      exact ih (idx + 1) (some e.id) _ (mem_pyInsert_of_mem lines idx (dirLine e) l h)

theorem insertDirEntries_covers (es : List DirEntry) (existing : List Str)
    (idx : Nat) (key : Option Str) (lines : List Str) :
    ∀ e ∈ es, e.id ∈ existing ∨ dirLine e ∈ (insertDirEntries es existing idx key lines).1 := by
  induction es generalizing idx key lines with
  | nil => intro e he; simp at he
  | cons e0 es ih =>
    intro e he
    unfold insertDirEntries
    rcases List.mem_cons.mp he with rfl | he'
    · by_cases he0 : e.id ∈ existing
      · exact Or.inl he0
      · rw [if_neg he0]
        exact Or.inr (mem_lines_insertDirEntries es existing (idx + 1) (some e.id) _ _
          (mem_pyInsert_self lines idx (dirLine e)))
    · by_cases he0 : e0.id ∈ existing
      · rw [if_pos he0]
        exact ih idx key lines e he'
      · rw [if_neg he0]
        exact ih (idx + 1) (some e0.id) _ e he'

theorem insertDirEntries_all_existing (es : List DirEntry) (existing : List Str)
    (idx : Nat) (key : Option Str) (lines : List Str)
    (h : ∀ e ∈ es, e.id ∈ existing) :
    insertDirEntries es existing idx key lines = (lines, key) := by
  induction es with
  | nil => rfl
  | cons e0 es ih =>
    unfold insertDirEntries
    rw [if_pos (h e0 (List.mem_cons_self e0 es))]
    exact ih fun e he => h e (List.mem_cons_of_mem e0 he)

theorem mem_existingDirs_of_dirLine (lines : List Str) (e : DirEntry)
    (hid : '\t' ∉ e.id) (h : dirLine e ∈ lines) : e.id ∈ existingDirs lines := by
  unfold existingDirs
  apply List.mem_map.mpr
  refine ⟨dirLine e, List.mem_filter.mpr ⟨h, ?_⟩, ?_⟩
  · simp only [decide_eq_true_eq]
    unfold dirLine
    exact List.mem_append_right _ (List.mem_cons_self _ _)
  · unfold dirLine
    rw [splitOnChar_append_of_not_mem '\t' e.id _ hid]
    cases hsp : splitOnChar '\t'
        ((match e.parent with | none => "None".toList | some p => p) ++
          '\t' :: (e.name ++ ['\n'])) with
    | nil => exact absurd hsp (splitOnChar_ne_nil _ _)
    | cons a b => rfl

theorem existingDirs_mono (lines lines' : List Str)
    (h : ∀ l ∈ lines, l ∈ lines') : ∀ x ∈ existingDirs lines, x ∈ existingDirs lines' := by
  intro x hx
  unfold existingDirs at hx ⊢
  rcases List.mem_map.mp hx with ⟨l, hl, rfl⟩
  obtain ⟨hlm, hlt⟩ := List.mem_filter.mp hl
  exact List.mem_map.mpr ⟨l, List.mem_filter.mpr ⟨h l hlm, hlt⟩, rfl⟩

theorem resolveTail_cons (pid : Option Str) (part : Str) (rest : List Str) :
    resolveTail pid (part :: rest) =
      ⟨makeDirectoryId part pid, pid, part⟩ ::
        resolveTail (some (makeDirectoryId part pid)) rest := rfl

theorem resolveTail_append (l1 l2 : List Str) :
    ∀ pid, resolveTail pid (l1 ++ l2) =
      resolveTail pid l1 ++ resolveTail (tailPid pid l1) l2 := by
  induction l1 with
  | nil => intro pid; rfl
  | cons part rest ih =>
    intro pid
    have ht : tailPid pid (part :: rest) = tailPid (some (makeDirectoryId part pid)) rest := rfl
    rw [List.cons_append, resolveTail_cons, ih, resolveTail_cons, ht, List.cons_append]

theorem get_top_cons_skip (l : Str) (ls : List Str) (h : featureSkip l = true) :
    get_top_level_feature (l :: ls) = get_top_level_feature ls := by
  unfold get_top_level_feature
  simp only [h, if_true]
  rw [← get_top_level_feature.eq_def]

theorem get_top_cons_hit (l : Str) (ls : List Str) (h1 : featureSkip l = false)
    (h2 : featureQualifies l = true) :
    get_top_level_feature (l :: ls) = some ((splitOnChar '\t' (pyStrip l)).headD []) := by
  unfold get_top_level_feature
  simp [h1, h2]

theorem get_top_cons_miss (l : Str) (ls : List Str) (h1 : featureSkip l = false)
    (h2 : featureQualifies l = false) :
    get_top_level_feature (l :: ls) = get_top_level_feature ls := by
  unfold get_top_level_feature
  simp only [h1, h2, Bool.false_eq_true, if_false]
  rw [← get_top_level_feature.eq_def]

theorem view_cons_skip (l : Str) (ls : List Str) (h : featureSkip l = true) :
    topLevelFeatureView (l :: ls) = topLevelFeatureView ls := by
  unfold topLevelFeatureView
  simp [List.filter_cons, h]

theorem view_cons_hit (l : Str) (ls : List Str) (h1 : featureSkip l = false)
    (h2 : featureQualifies l = true) :
    topLevelFeatureView (l :: ls) = some ((splitOnChar '\t' (pyStrip l)).headD []) := by
  unfold topLevelFeatureView
  simp [List.filter_cons, h1, List.find?_cons, h2]

theorem view_cons_miss (l : Str) (ls : List Str) (h1 : featureSkip l = false)
    (h2 : featureQualifies l = false) :
    topLevelFeatureView (l :: ls) = topLevelFeatureView ls := by
  unfold topLevelFeatureView
  simp [List.filter_cons, h1, List.find?_cons, h2]

/-- C10: the top-level-feature lookup skips every line that is empty or
begins with the character `s` or the text `Feature` (header or data row
alike); consequently it agrees with the view that searches only the
non-skipped lines for the first row whose second column is empty, and on
every Feature table in which each row with an empty second column is
skipped it reports the missing-feature error (`none`) even if a top-level
feature row exists. -/
theorem C10_top_level_feature_skip (lines : List Str) :
    get_top_level_feature lines = topLevelFeatureView lines ∧
    ((∀ l ∈ lines, featureQualifies l = true → featureSkip l = true) →
      get_top_level_feature lines = none) := by
  have href : get_top_level_feature lines = topLevelFeatureView lines := by
    induction lines with
    | nil => rfl
    | cons l ls ih =>
      by_cases hs : featureSkip l = true
      · rw [get_top_cons_skip l ls hs, view_cons_skip l ls hs, ih]
      · have hs' : featureSkip l = false := by revert hs; cases featureSkip l <;> simp
        by_cases hq : featureQualifies l = true
        · rw [get_top_cons_hit l ls hs' hq, view_cons_hit l ls hs' hq]
        · have hq' : featureQualifies l = false := by revert hq; cases featureQualifies l <;> simp
          rw [get_top_cons_miss l ls hs' hq', view_cons_miss l ls hs' hq', ih]
  refine ⟨href, ?_⟩
  intro hall
  rw [href]
  unfold topLevelFeatureView
  rw [List.find?_eq_none.mpr]
  · rfl
  · intro x hx
    obtain ⟨hxm, hxf⟩ := List.mem_filter.mp hx
    intro hq
    have := hall x hxm hq
    rw [this] at hxf
    cases hxf

/-- C10 witness: a Feature table whose only empty-parent row has an id that
begins with `s`; the lookup reports the missing-feature error. -/
theorem C10_witness : get_top_level_feature featureLinesHidden = none :=
  (C10_top_level_feature_skip featureLinesHidden).2 (by decide)

/-- C7: directory insertion is idempotent: running `modify_directory_idt`
again on the table produced by a first run inserts nothing (the returned
table is unchanged and the returned key is `None`, the value it has when
zero entries are appended). -/
theorem C7_directory_insert_idempotent (arch dest : Str) (lines : List Str) :
    modify_directory_idt arch (modify_directory_idt arch lines dest).1 dest =
      ((modify_directory_idt arch lines dest).1, none) := by
  unfold modify_directory_idt
  apply insertDirEntries_all_existing
  intro e he
  rcases insertDirEntries_covers (get_required_directory_entries arch dest)
      (existingDirs lines) (dirInsertIndex lines) none lines e he with h1 | h2
  · exact existingDirs_mono lines _
      (fun l hl => mem_lines_insertDirEntries _ _ _ _ _ l hl) _ h1
  · exact mem_existingDirs_of_dirLine _ e (needed_tabFree arch dest e he) h2

/-- C5 (amended): resolution is deterministic and stable on shared
segment-wise ancestors: resolving a path that extends `p` by a separator
and further text yields the node list of `p` as an initial run, so shared
segments always receive identical synthetic ids.  (The injectivity half of
the claim is refuted by `C5_counterexample`.) -/
theorem C5_shared_segments_deterministic (arch p rest : Str) :
    ∃ t, get_required_directory_entries arch (p ++ '\\' :: rest) =
      get_required_directory_entries arch p ++ t := by
  unfold get_required_directory_entries
  have hmap : (p ++ '\\' :: rest).map (fun c => if c = '/' then '\\' else c) =
      p.map (fun c => if c = '/' then '\\' else c) ++ '\\' ::
        rest.map (fun c => if c = '/' then '\\' else c) := by
    simp
  rw [hmap, splitOnChar_append]
  cases hsp : splitOnChar '\\' (p.map (fun c => if c = '/' then '\\' else c)) with
  | nil => exact absurd hsp (splitOnChar_ne_nil _ _)
  | cons q0 q1 =>
    simp only [List.cons_append]
    refine ⟨resolveTail (tailPid (addFolder (pyLower arch) addFolderFuel [] q0).2 q1)
      (splitOnChar '\\' (rest.map (fun c => if c = '/' then '\\' else c))), ?_⟩
    rw [resolveTail_append]
    simp [List.append_assoc]

/-- C5 counterexample: the two distinct destination paths `desktop\AB` and
`desktop\Ab` resolve to the same leaf id `DesktopFolder_Ab`, because the
sanitization title-cases the segment; so leaf ids are not injective over
distinct paths. -/
theorem C5_counterexample :
    "desktop\\AB".toList ≠ "desktop\\Ab".toList ∧
    ((get_required_directory_entries "x86".toList "desktop\\AB".toList).map
        DirEntry.id).getLast? = some "DesktopFolder_Ab".toList ∧
    ((get_required_directory_entries "x86".toList "desktop\\Ab".toList).map
        DirEntry.id).getLast? = some "DesktopFolder_Ab".toList := by
  decide

/-- C6 (amended): alias resolution is architecture-dependent exactly as the
source map dictates — under `x64`, `system32` maps to the 64-bit system
node and `syswow64` to the 32-bit compatibility node, reversed under
`x86`, and `program files` picks the per-architecture program-files node —
and resolving `Program Files\MyApp\Bin` yields the three claimed nodes on
each architecture.  On `x86` the tail nodes keep the same display names
and parent chain but their synthetic ids embed the 32-bit parent id (see
`C6_counterexample` for the refuted literal reading). -/
theorem C6_arch_alias_resolution :
    folderMap "x64".toList "system32".toList =
      some ("System64Folder".toList, "WindowsFolder".toList, "System64".toList) ∧
    folderMap "x64".toList "syswow64".toList =
      some ("SystemFolder".toList, "WindowsFolder".toList, "SysWOW64".toList) ∧
    folderMap "x86".toList "system32".toList =
      some ("SystemFolder".toList, "WindowsFolder".toList, "System32".toList) ∧
    folderMap "x86".toList "syswow64".toList =
      some ("System64Folder".toList, "WindowsFolder".toList, "SysWOW64".toList) ∧
    folderMap "x64".toList "program files".toList =
      some ("ProgramFiles64Folder".toList, "TARGETDIR".toList, "ProgramFiles".toList) ∧
    folderMap "x86".toList "program files".toList =
      some ("ProgramFilesFolder".toList, "TARGETDIR".toList, "ProgramFiles".toList) ∧
    get_required_directory_entries "x64".toList "Program Files\\MyApp\\Bin".toList =
      [⟨"ProgramFiles64Folder".toList, some "TARGETDIR".toList, "ProgramFiles".toList⟩,
       ⟨"ProgramFiles64Folder_Myapp".toList, some "ProgramFiles64Folder".toList, "MyApp".toList⟩,
       ⟨"ProgramFiles64Folder_Myapp_Bin".toList, some "ProgramFiles64Folder_Myapp".toList,
        "Bin".toList⟩] ∧
    get_required_directory_entries "x86".toList "Program Files\\MyApp\\Bin".toList =
      [⟨"ProgramFilesFolder".toList, some "TARGETDIR".toList, "ProgramFiles".toList⟩,
       ⟨"ProgramFilesFolder_Myapp".toList, some "ProgramFilesFolder".toList, "MyApp".toList⟩,
       ⟨"ProgramFilesFolder_Myapp_Bin".toList, some "ProgramFilesFolder_Myapp".toList,
        "Bin".toList⟩] :=
  ⟨by decide, by decide, by decide, by decide, by decide, by decide, by decide, by decide⟩

/-- C6 counterexample: on `x86` the result is not the `x64` result with
only the first node replaced — the tail nodes differ as well, because the
synthetic ids embed the parent id. -/
theorem C6_counterexample :
    get_required_directory_entries "x86".toList "Program Files\\MyApp\\Bin".toList ≠
      ⟨"ProgramFilesFolder".toList, some "TARGETDIR".toList, "ProgramFiles".toList⟩ ::
        (get_required_directory_entries "x64".toList "Program Files\\MyApp\\Bin".toList).drop 1 := by
  decide

/-- C2: whenever the execution-sequence table parses and contains the
anchor action `InstallFiles` with sequence number `a`, the allocated
number `r` is strictly greater than `a`, different from every parsed
pre-existing sequence number, and minimal: every value strictly between
`a` and `r` is already taken (the loop starts at `a + 1` and increments
until a free value is found). -/
theorem C2_next_sequence_least_fresh (lines : List Str) (used : List Int) (a r : Int)
    (hp : parseExecSeq lines = some (used, some a))
    (hr : get_next_install_sequence_number lines = some r) :
    a < r ∧ r ∉ used ∧ ∀ v : Int, a < v → v < r → v ∈ used := by
  unfold get_next_install_sequence_number at hr
  rw [hp] at hr
  change findCandidate used (a + 1) = some r at hr
  unfold findCandidate at hr
  obtain ⟨h1, h2, h3⟩ := findCandidateAux_some_spec _ used (a + 1) r hr
  exact ⟨by omega, h1, fun v hv1 hv2 => h3 v (by omega) hv2⟩

/-- C2 witness: on the fixture table with the anchor at 4000 and 4001
taken, the allocation returns 4002, which is above the anchor and fresh. -/
theorem C2_witness :
    (4000 : Int) < 4002 ∧ (4002 : Int) ∉ ([4000, 4001] : List Int) := by
  have h := C2_next_sequence_least_fresh execLines [4000, 4001] 4000 4002
    (by decide) (by decide)
  exact ⟨h.1, h.2.1⟩

/-- C9 (amended): collision exhaustion cannot occur — the used set parsed
from the table is finite, so whenever the anchor action is present the
allocation loop terminates and returns a value outside the used set; the
code has no fatal-error path and no safety bound for collisions (the only
allocation failure is a missing anchor or an unparsable table). -/
theorem C9_allocation_total (lines : List Str) (used : List Int) (a : Int)
    (hp : parseExecSeq lines = some (used, some a)) :
    ∃ r, get_next_install_sequence_number lines = some r ∧ r ∉ used := by
  unfold get_next_install_sequence_number
  rw [hp]
  obtain ⟨r, hr⟩ := findCandidate_isSome used (a + 1)
  have hspec := findCandidateAux_some_spec _ used (a + 1) r hr
  exact ⟨r, hr, hspec.1⟩

/-- C9 witness: allocation succeeds on the fixture table and the result is
fresh. -/
theorem C9_witness :
    ∃ r, get_next_install_sequence_number execLines = some r ∧
      r ∉ ([4000, 4001] : List Int) :=
  C9_allocation_total execLines [4000, 4001] 4000 (by decide)

/-- C9 counterexample: with the anchor at 4000 and every candidate from
4001 to 4010 already taken, the loop runs past all ten collisions and
returns 4011 — it does not fail with a fatal error at any collision
bound, contrary to the claimed exhaustion error. -/
theorem C9_counterexample :
    get_next_install_sequence_number execLinesDense = some 4011 := by
  decide

/-- C4 (amended): when the anchor action is absent from the
execution-sequence table, both embedded custom-action operations abort
with the error flag, leaving the CustomAction table and the
ExecutionSequence table unchanged — but the Binary table has already
received the appended binary row before the failure, so it is not
unchanged. -/
theorem C4_abort_keeps_binary_row (st : ActionTables) (fp an fn args : Str)
    (async : Bool) (used : List Int)
    (hp : parseExecSeq st.execSeq = some (used, none)) :
    run_custom_exe_action st fp an async args =
      ({ st with binary :=
          st.binary ++ [(binaryKey fp, "Binary.".toList ++ binaryKey fp)] }, false) ∧
    run_custom_dll_action st fp an async fn =
      ({ st with binary :=
          st.binary ++ [(binaryKey fp, "Binary.".toList ++ binaryKey fp)] }, false) := by
  have hseq : modify_install_execute_sequence_idt st.execSeq an = none := by
    unfold modify_install_execute_sequence_idt get_next_install_sequence_number
    rw [hp]
  constructor
  · simp only [run_custom_exe_action, hseq]
  · simp only [run_custom_dll_action, hseq]

/-- C4 witness: on the fixture table without `InstallFiles`, both embedded
operations return the fatal flag with only the Binary row appended. -/
theorem C4_witness :
    run_custom_exe_action actionStateNoAnchor "payload.exe".toList "InjectedAct".toList
        false [] =
      ({ actionStateNoAnchor with binary := actionStateNoAnchor.binary ++
          [(binaryKey "payload.exe".toList,
            "Binary.".toList ++ binaryKey "payload.exe".toList)] }, false) ∧
    run_custom_dll_action actionStateNoAnchor "payload.exe".toList "InjectedAct".toList
        false "Fn".toList =
      ({ actionStateNoAnchor with binary := actionStateNoAnchor.binary ++
          [(binaryKey "payload.exe".toList,
            "Binary.".toList ++ binaryKey "payload.exe".toList)] }, false) :=
  C4_abort_keeps_binary_row actionStateNoAnchor "payload.exe".toList "InjectedAct".toList
    "Fn".toList [] false [6000] (by decide)

/-- C4 counterexample: an embedded-exe injection whose anchor is absent
aborts fatally, yet the Binary table is modified — appended before the
failure — refuting the claim that the Binary table is unchanged. -/
theorem C4_counterexample :
    (run_custom_exe_action actionStateNoAnchor "payload.exe".toList
        "InjectedAct".toList false []).2 = false ∧
    (run_custom_exe_action actionStateNoAnchor "payload.exe".toList
        "InjectedAct".toList false []).1.binary ≠ actionStateNoAnchor.binary := by
  decide

/-- C8: the typeCode written for a new custom action is the base code per
kind plus the asynchronous bit — embedded exe `2` (`2 + 192` when async),
embedded dll `1` (`1 + 64 = 65` when async), preinstalled command `226`
with no asynchronous variant. -/
theorem C8_custom_action_type_codes (st : ActionTables) (fp an args fn cmd : Str)
    (async : Bool) :
    (∀ st1, run_custom_exe_action st fp an async args = (st1, true) →
      st1.customAction = st.customAction ++
        [⟨an, if async then 2 + 192 else 2, binaryKey fp, args⟩]) ∧
    (∀ st1, run_custom_dll_action st fp an async fn = (st1, true) →
      st1.customAction = st.customAction ++
        [⟨an, if async then 1 + 64 else 1, binaryKey fp, fn⟩]) ∧
    (∀ st1, run_custom_preinstalled_exe_action st an cmd = (st1, true) →
      st1.customAction = st.customAction ++ [⟨an, 226, "INSTALLDIR".toList, cmd⟩]) := by
  refine ⟨?_, ?_, ?_⟩ <;> intro st1 h
  · rw [run_custom_exe_action] at h
    cases hm : modify_install_execute_sequence_idt st.execSeq an with
    | none =>
      rw [hm] at h
      injection h with h1 h2
      cases h2
    | some lines1 =>
      rw [hm] at h
      injection h with h1 h2
      rw [← h1]
  · rw [run_custom_dll_action] at h
    cases hm : modify_install_execute_sequence_idt st.execSeq an with
    | none =>
      rw [hm] at h
      injection h with h1 h2
      cases h2
    | some lines1 =>
      rw [hm] at h
      injection h with h1 h2
      rw [← h1]
  · rw [run_custom_preinstalled_exe_action] at h
    cases hm : modify_install_execute_sequence_idt st.execSeq an with
    | none =>
      rw [hm] at h
      injection h with h1 h2
      cases h2
    | some lines1 =>
      rw [hm] at h
      injection h with h1 h2
      rw [← h1]

/-- C8 witness: an asynchronous embedded-dll action on the fixture table
gets typeCode `1 + 64 = 65`. -/
theorem C8_witness :
    (run_custom_dll_action actionStateC "payload.dll".toList "InjectedAct".toList
        true "RunMe".toList).1.customAction =
      actionStateC.customAction ++
        [⟨"InjectedAct".toList, if true then 1 + 64 else 1,
          binaryKey "payload.dll".toList, "RunMe".toList⟩] :=
  (C8_custom_action_type_codes actionStateC "payload.dll".toList "InjectedAct".toList
    [] "RunMe".toList [] true).2.1 _ (by decide)

/-- C3: evaluation of `file_dropper` at a state whose Directory table
already contains every node of the destination `desktop`: the drop
succeeds (sequence 11 allocated) but the new ComponentRow carries
directory key `none` — the Python `None` that `modify_directory_idt`
returns when nothing is inserted — although the leaf of the resolved path
is `DesktopFolder`.  This contradicts the docstring (`Directory key
created or reused`) and the spec (`remember the id of the leaf node as the
component directory`). -/
theorem C3_directory_key_none_eval :
    (file_dropper "x86".toList dropStateC "MyComponent".toList "file.bin".toList
        "dropped.exe".toList "desktop".toList 100 "GUID".toList).2 = some 11 ∧
    (file_dropper "x86".toList dropStateC "MyComponent".toList "file.bin".toList
        "dropped.exe".toList "desktop".toList 100 "GUID".toList).1.component.getLast? =
      some ⟨"MyComponent".toList, "GUID".toList, none, "file.bin".toList⟩ ∧
    (get_required_directory_entries "x86".toList "desktop".toList).map DirEntry.id =
      ["DesktopFolder".toList] := by
  exact ⟨by decide, by decide, by decide⟩

/-- C1: if the Media table parses to `lastSequence = L`, its data line is
positionally writable, a top-level feature exists, and `L` is the maximum
file sequence over the File rows, then `inject-file` allocates the new
file sequence `L + 1`, and afterwards the Media `lastSequence` re-parses
to `L + 1`, which is again the maximum over all file rows including the
newly appended one. -/
theorem C1_inject_file_media_max (arch : Str) (st : DropState)
    (cn cab dn dd guid : Str) (fs L : Int)
    (hL : get_last_sequence_from_media_idt st.media = some L)
    (hready : mediaWriteReady st.media = true)
    (hfeat : ∃ tf, get_top_level_feature st.feature = some tf)
    (hmem : L ∈ st.file.map FileRow.sequence)
    (hmax : ∀ s ∈ st.file.map FileRow.sequence, s ≤ L) :
    ∃ st', file_dropper arch st cn cab dn dd fs guid = (st', some (L + 1)) ∧
      get_last_sequence_from_media_idt st'.media = some (L + 1) ∧
      st'.file.map FileRow.sequence = st.file.map FileRow.sequence ++ [L + 1] ∧
      (L + 1) ∈ st'.file.map FileRow.sequence ∧
      ∀ s ∈ st'.file.map FileRow.sequence, s ≤ L + 1 := by
  obtain ⟨tf, htf⟩ := hfeat
  obtain ⟨media1, hm1, hm2⟩ := modify_media_roundtrip st.media (L + 1) hready
  refine ⟨{ st with
      directory := (modify_directory_idt arch st.directory dd).1
      file := st.file ++ [⟨cab, cn, dn, fs, L + 1⟩]
      component := st.component ++
        [⟨cn, guid, (modify_directory_idt arch st.directory dd).2, cab⟩]
      featureComponents := st.featureComponents ++ [(tf, cn)]
      media := media1 }, ?_, ?_, ?_, ?_, ?_⟩
  · simp only [file_dropper, hL, htf, hm1]
  · exact hm2
  · simp
  · simp
  · intro s hs
    rw [List.map_append] at hs
    rcases List.mem_append.mp hs with h1 | h2
    · have := hmax s h1
      omega
    · simp at h2
      omega

/-- C1 witness: on the fixture state (`lastSequence = 10`, one file row at
sequence 10), injecting a file allocates sequence 11 and the media table
re-parses to 11, the new maximum. -/
theorem C1_witness :
    ∃ st', file_dropper "x86".toList dropStateC "MyComponent".toList "file.bin".toList
        "dropped.exe".toList "desktop".toList 100 "GUID".toList = (st', some (10 + 1)) ∧
      get_last_sequence_from_media_idt st'.media = some (10 + 1) ∧
      st'.file.map FileRow.sequence = dropStateC.file.map FileRow.sequence ++ [10 + 1] ∧
      ((10 : Int) + 1) ∈ st'.file.map FileRow.sequence ∧
      ∀ s ∈ st'.file.map FileRow.sequence, s ≤ 10 + 1 :=
  C1_inject_file_media_max "x86".toList dropStateC "MyComponent".toList "file.bin".toList
    "dropped.exe".toList "desktop".toList "GUID".toList 100 10
    (by decide) (by decide) ⟨"MainFeature".toList, by decide⟩ (by decide) (by decide)
